import Mathlib

/-!
Shallow embedding of the Neko-assistant memory chatbot (Python sources under
`src/`), together with theorems checking the natural-language specification
against the code.  Python strings are modelled as lists of characters,
floating-point numbers as rationals (exact arithmetic; division is total with
`x / 0 = 0`, and the square root used by vector norms is a rational stand-in
that is exact on perfect squares), and the SQLite tables as in-memory lists of
rows in insertion order.  External collaborators (the LLM, the embedding model
and the rapidfuzz scorer) are parameters of the embedded functions.
-/

namespace Neko

/-- Python strings are modelled as lists of characters. -/
abbrev Str := List Char

/-- The part of the message separator between the two newlines. -/
def SEP_CORE : Str := "<message seperator>".toList

/-- Constant `MESSAGE_SEPERATOR` from `memory/memory_manager.py`. -/
def MESSAGE_SEPERATOR : Str := '\n' :: (SEP_CORE ++ ['\n'])

/-! ### Decimal rendering and parsing of numbers

Python's `str` / `float` round-trip on scalars is modelled by an exact codec
on `ℚ`: the numerator and denominator are rendered in decimal around a `'/'`.
The embedding only relies on the codec being exact, comma-free and non-empty,
which the Python shortest-repr float codec also guarantees. -/

/-- The character of a decimal digit. -/
def digitChar (d : Nat) : Char :=
  if d = 0 then '0'
  else if d = 1 then '1'
  else if d = 2 then '2'
  else if d = 3 then '3'
  else if d = 4 then '4'
  else if d = 5 then '5'
  else if d = 6 then '6'
  else if d = 7 then '7'
  else if d = 8 then '8'
  else '9'

/-- The numeric value of a decimal digit character. -/
def digitVal (c : Char) : Nat := c.toNat - 48

/-- Little-endian decimal digits, with explicit fuel so that the kernel can
evaluate the definition. -/
def natDigitsRevGo : Nat → Nat → List Nat
  | 0, _ => []
  | fuel + 1, n => if n = 0 then [] else n % 10 :: natDigitsRevGo fuel (n / 10)

/-- Little-endian decimal digits of a natural number (empty for zero). -/
def natDigitsRev (n : Nat) : List Nat := natDigitsRevGo n n

/-- Decimal rendering of a natural number. -/
def natRepr (n : Nat) : Str :=
  if n = 0 then ['0'] else (natDigitsRev n).reverse.map digitChar

/-- Decimal rendering of an integer. -/
def intRepr (i : Int) : Str :=
  if i < 0 then '-' :: natRepr i.natAbs else natRepr i.natAbs

/-- Scalar rendering used when embedding vectors are serialized. -/
def floatRepr (q : ℚ) : Str := intRepr q.num ++ ('/' :: natRepr q.den)

/-- Decimal parsing of a natural number. -/
def parseNat (s : Str) : Nat := s.foldl (fun acc c => 10 * acc + digitVal c) 0

/-- Decimal parsing of an integer (optional leading minus sign). -/
def parseInt (s : Str) : Int :=
  match s with
  | [] => 0
  | c :: t => if c = '-' then -(parseNat t : Int) else (parseNat (c :: t) : Int)

/-! ### Python `str.split` for a non-empty separator -/

/-- Prepend a character to the first piece of a split result. -/
def consHead (c : Char) : List Str → List Str
  | [] => [[c]]
  | h :: t => (c :: h) :: t

/-- Worker for `pySplit`, with explicit fuel (structural recursion) so the
kernel can evaluate it.  Scans left to right for the leftmost occurrence of
the separator `c0 :: sep1` and removes non-overlapping occurrences. -/
def pySplitGo (c0 : Char) (sep1 : Str) : Nat → Str → List Str
  | _, [] => [[]]
  | 0, _ :: _ => [[]]
  | fuel + 1, c :: rest =>
    if (c0 :: sep1) <+: (c :: rest) then
      [] :: pySplitGo c0 sep1 fuel (List.drop sep1.length rest)
    else
      consHead c (pySplitGo c0 sep1 fuel rest)

/-- Python `s.split(sep)` for a non-empty separator: leftmost-first,
non-overlapping occurrences; `"".split(sep) == [""]`. -/
def pySplit (sep s : Str) : List Str :=
  match sep with
  | [] => [s]
  | c0 :: sep1 => pySplitGo c0 sep1 s.length s

/-- Scalar parsing inverse to `floatRepr`. -/
def parseFloat (s : Str) : ℚ :=
  match pySplit ['/'] s with
  | [ns, ds] => (parseInt ns : ℚ) / (parseNat ds : ℚ)
  | _ => 0

/-! ### Fuel elimination and recursion equations for `pySplit` -/

theorem pySplitGo_fuel_irrel (c0 : Char) (sep1 : Str) :
    ∀ (f1 f2 : Nat) (s : Str), s.length ≤ f1 → s.length ≤ f2 →
      pySplitGo c0 sep1 f1 s = pySplitGo c0 sep1 f2 s := by
  intro f1
  induction f1 with
  | zero =>
    intro f2 s h1 _
    have hs : s = [] := List.eq_nil_of_length_eq_zero (Nat.le_zero.mp h1)
    subst hs
    cases f2 <;> rfl
  | succ f ih =>
    intro f2 s h1 h2
    cases s with
    | nil => cases f2 <;> rfl
    | cons c rest =>
      cases f2 with
      | zero => simp at h2
      | succ g =>
        simp only [pySplitGo]
        have hr : rest.length ≤ f := by simpa using h1
        have hg : rest.length ≤ g := by simpa using h2
        have hd : (List.drop sep1.length rest).length ≤ f :=
          le_trans (by simp) hr
        have hdg : (List.drop sep1.length rest).length ≤ g :=
          le_trans (by simp) hg
        rw [ih g (List.drop sep1.length rest) hd hdg, ih g rest hr hg]

theorem pySplit_nil (c0 : Char) (sep1 : Str) : pySplit (c0 :: sep1) [] = [[]] := rfl

theorem pySplit_cons (c0 : Char) (sep1 : Str) (c : Char) (rest : Str) :
    pySplit (c0 :: sep1) (c :: rest) =
      if (c0 :: sep1) <+: (c :: rest) then
        [] :: pySplit (c0 :: sep1) (List.drop sep1.length rest)
      else
        consHead c (pySplit (c0 :: sep1) rest) := by
  show pySplitGo c0 sep1 (rest.length + 1) (c :: rest) = _
  simp only [pySplitGo]
  by_cases h : (c0 :: sep1) <+: (c :: rest)
  · rw [if_pos h, if_pos h]
    have := pySplitGo_fuel_irrel c0 sep1 rest.length (List.drop sep1.length rest).length
      (List.drop sep1.length rest) (by simp) (le_refl _)
    rw [this]
    rfl
  · rw [if_neg h, if_neg h]
    rfl

/-! ### Occurrences of a separator and the split/join round trip -/

/-- The list `sep` occurs in `u` starting at position `p`. -/
def OccursAt (sep u : Str) (p : Nat) : Prop := sep <+: List.drop p u

theorem pySplit_append_sep (sep rest : Str) (hsep : sep ≠ []) :
    ∀ m : Str, (∀ p, p < m.length → ¬ OccursAt sep (m ++ sep ++ rest) p) →
      pySplit sep (m ++ sep ++ rest) = m :: pySplit sep rest := by
  obtain ⟨c0, sep1, rfl⟩ : ∃ c0 sep1, sep = c0 :: sep1 := by
    cases sep with
    | nil => exact absurd rfl hsep
    | cons a b => exact ⟨a, b, rfl⟩
  intro m
  induction m with
  | nil =>
    intro _
    simp only [List.nil_append, List.cons_append]
    rw [pySplit_cons]
    have hpre : (c0 :: sep1) <+: (c0 :: (sep1 ++ rest)) := by
      refine List.cons_prefix_cons.mpr ⟨rfl, ?_⟩
      exact ⟨rest, rfl⟩
    rw [if_pos hpre, List.drop_left]
  | cons c m' ih =>
    intro hocc
    have h0 : ¬ (c0 :: sep1) <+: (c :: (m' ++ (c0 :: sep1) ++ rest)) := by
      have := hocc 0 (by simp)
      simpa [OccursAt] using this
    have hstep : pySplit (c0 :: sep1) ((c :: m') ++ (c0 :: sep1) ++ rest) =
        consHead c (pySplit (c0 :: sep1) (m' ++ (c0 :: sep1) ++ rest)) := by
      simp only [List.cons_append]
      rw [pySplit_cons, if_neg h0]
    rw [hstep, ih ?_]
    · rfl
    · intro p hp hoccp
      have := hocc (p + 1) (by simpa using Nat.succ_lt_succ hp)
      apply this
      simpa [OccursAt, List.drop_succ_cons] using hoccp

theorem pySplit_of_no_occurrence (sep : Str) (hsep : sep ≠ []) :
    ∀ m : Str, (∀ p, ¬ OccursAt sep m p) → pySplit sep m = [m] := by
  obtain ⟨c0, sep1, rfl⟩ : ∃ c0 sep1, sep = c0 :: sep1 := by
    cases sep with
    | nil => exact absurd rfl hsep
    | cons a b => exact ⟨a, b, rfl⟩
  intro m
  induction m with
  | nil => intro _; rfl
  | cons c m' ih =>
    intro hocc
    rw [pySplit_cons]
    have h0 : ¬ (c0 :: sep1) <+: (c :: m') := by
      have := hocc 0
      simpa [OccursAt] using this
    rw [if_neg h0, ih ?_]
    · rfl
    · intro p hp
      have := hocc (p + 1)
      apply this
      simpa [OccursAt, List.drop_succ_cons] using hp

theorem isInfix_iff_occursAt (sep m : Str) :
    sep <:+: m ↔ ∃ p, OccursAt sep m p := by
  constructor
  · rintro ⟨s, t, rfl⟩
    refine ⟨s.length, ?_⟩
    unfold OccursAt
    rw [List.append_assoc, List.drop_left]
    exact ⟨t, rfl⟩
  · rintro ⟨p, hp⟩
    obtain ⟨t, ht⟩ := hp
    refine ⟨List.take p m, t, ?_⟩
    calc List.take p m ++ sep ++ t = List.take p m ++ (sep ++ t) := by
          rw [List.append_assoc]
      _ = List.take p m ++ List.drop p m := by rw [ht]
      _ = m := List.take_append_drop p m

theorem occursAt_single_getD {c : Char} {u : Str} {p : Nat} (h : OccursAt [c] u p) :
    u[p]? = some c := by
  obtain ⟨t, ht⟩ := h
  have h0 : (List.drop p u)[0]? = some c := by rw [← ht]; simp
  rw [List.getElem?_drop] at h0
  simpa using h0

theorem occursAt_single_mem {c : Char} {u : Str} {p : Nat} (h : OccursAt [c] u p) : c ∈ u :=
  List.getElem?_mem (occursAt_single_getD h)

theorem no_single_occurrence_in_free_head {c : Char} (m w : Str) (hm : c ∉ m) :
    ∀ p, p < m.length → ¬ OccursAt [c] (m ++ w) p := by
  intro p hp hocc
  have h1 : (m ++ w)[p]? = some c := occursAt_single_getD hocc
  rw [List.getElem?_append_left hp] at h1
  exact hm (List.getElem?_mem h1)

theorem pySplit_single_of_not_mem {c : Char} (m : Str) (hm : c ∉ m) : pySplit [c] m = [m] := by
  apply pySplit_of_no_occurrence [c] (by simp) m
  intro p hocc
  exact hm (occursAt_single_mem hocc)

theorem intercalate_cons₂ (sep x y : Str) (l : List Str) :
    List.intercalate sep (x :: y :: l) = x ++ sep ++ List.intercalate sep (y :: l) := by
  simp [List.intercalate, List.intersperse, List.append_assoc]

theorem intercalate_singleton' (sep x : Str) : List.intercalate sep [x] = x := by
  simp [List.intercalate]

theorem pySplit_intercalate_single (c : Char) :
    ∀ (parts : List Str), parts ≠ [] → (∀ s ∈ parts, c ∉ s) →
      pySplit [c] (List.intercalate [c] parts) = parts := by
  intro parts
  induction parts with
  | nil => intro h _; exact absurd rfl h
  | cons m rest ih =>
    intro _ hfree
    cases rest with
    | nil =>
      rw [intercalate_singleton']
      exact pySplit_single_of_not_mem m (hfree m (by simp))
    | cons m2 r2 =>
      rw [intercalate_cons₂]
      have hstep : pySplit [c] (m ++ [c] ++ List.intercalate [c] (m2 :: r2)) =
          m :: pySplit [c] (List.intercalate [c] (m2 :: r2)) := by
        apply pySplit_append_sep [c] _ (by simp) m
        intro p hp hocc
        apply no_single_occurrence_in_free_head m ([c] ++ List.intercalate [c] (m2 :: r2))
          (hfree m (by simp)) p hp
        simpa [OccursAt, List.append_assoc] using hocc
      rw [hstep, ih (by simp) (fun s hs => hfree s (by simp [hs]))]

/-! ### Round-trip facts for the scalar codec -/

theorem digitVal_digitChar {d : Nat} (h : d < 10) : digitVal (digitChar d) = d := by
  unfold digitChar
  split_ifs with h0 h1 h2 h3 h4 h5 h6 h7 h8
  · subst h0; decide
  · subst h1; decide
  · subst h2; decide
  · subst h3; decide
  · subst h4; decide
  · subst h5; decide
  · subst h6; decide
  · subst h7; decide
  · subst h8; decide
  · have h9 : d = 9 := by omega
    subst h9; decide

theorem digitChar_not_special (d : Nat) :
    digitChar d ≠ '-' ∧ digitChar d ≠ '/' ∧ digitChar d ≠ ',' ∧ digitChar d ≠ '\n' := by
  unfold digitChar
  split_ifs <;> exact ⟨by decide, by decide, by decide, by decide⟩

theorem natDigitsRevGo_fuel_irrel :
    ∀ (f1 f2 n : Nat), n ≤ f1 → n ≤ f2 → natDigitsRevGo f1 n = natDigitsRevGo f2 n := by
  intro f1
  induction f1 with
  | zero =>
    intro f2 n h1 _
    have : n = 0 := Nat.le_zero.mp h1
    subst this
    cases f2 <;> simp [natDigitsRevGo]
  | succ f ih =>
    intro f2 n h1 h2
    by_cases hn : n = 0
    · subst hn; cases f2 <;> simp [natDigitsRevGo]
    · cases f2 with
      | zero => omega
      | succ g =>
        simp only [natDigitsRevGo, if_neg hn]
        have hlt : n / 10 < n := Nat.div_lt_self (Nat.pos_of_ne_zero hn) (by norm_num)
        rw [ih g (n / 10) (by omega) (by omega)]

theorem natDigitsRev_eq (n : Nat) :
    natDigitsRev n = if n = 0 then [] else n % 10 :: natDigitsRev (n / 10) := by
  unfold natDigitsRev
  by_cases hn : n = 0
  · subst hn; simp [natDigitsRevGo]
  · rw [if_neg hn]
    cases n with
    | zero => exact absurd rfl hn
    | succ m =>
      simp only [natDigitsRevGo, if_neg hn]
      have hle : (m + 1) / 10 ≤ m := by
        have : (m + 1) / 10 < m + 1 := Nat.div_lt_self (by omega) (by norm_num)
        omega
      rw [natDigitsRevGo_fuel_irrel m ((m + 1) / 10) ((m + 1) / 10) hle (le_refl _)]

theorem natDigitsRev_lt (n : Nat) : ∀ d ∈ natDigitsRev n, d < 10 := by
  induction n using Nat.strong_induction_on with
  | _ n ih =>
    rw [natDigitsRev_eq]
    split_ifs with h
    · simp
    · intro d hd
      rcases List.mem_cons.mp hd with h1 | h2
      · subst h1; exact Nat.mod_lt _ (by norm_num)
      · exact ih (n / 10) (Nat.div_lt_self (Nat.pos_of_ne_zero h) (by norm_num)) d h2

theorem natDigitsRev_ne_nil {n : Nat} (h : n ≠ 0) : natDigitsRev n ≠ [] := by
  rw [natDigitsRev_eq, if_neg h]
  simp

theorem foldl_digits (n : Nat) : ∀ a : Nat,
    (natDigitsRev n).reverse.foldl (fun acc d => 10 * acc + d) a
      = a * 10 ^ (natDigitsRev n).length + n := by
  induction n using Nat.strong_induction_on with
  | _ n ih =>
    intro a
    rw [natDigitsRev_eq]
    split_ifs with h
    · subst h; simp
    · have hlt : n / 10 < n := Nat.div_lt_self (Nat.pos_of_ne_zero h) (by norm_num)
      simp only [List.reverse_cons, List.foldl_append, List.length_cons]
      rw [ih (n / 10) hlt a]
      simp only [List.foldl_cons, List.foldl_nil]
      have hdm : 10 * (n / 10) + n % 10 = n := Nat.div_add_mod n 10
      calc 10 * (a * 10 ^ (natDigitsRev (n / 10)).length + n / 10) + n % 10
          = a * 10 ^ ((natDigitsRev (n / 10)).length + 1) + (10 * (n / 10) + n % 10) := by
            rw [pow_succ]; ring
        _ = a * 10 ^ ((natDigitsRev (n / 10)).length + 1) + n := by rw [hdm]

theorem foldl_digitVal_map :
    ∀ (ds : List Nat), (∀ d ∈ ds, d < 10) → ∀ a : Nat,
      (ds.map digitChar).foldl (fun acc c => 10 * acc + digitVal c) a
        = ds.foldl (fun acc d => 10 * acc + d) a := by
  intro ds
  induction ds with
  | nil => intro _ a; rfl
  | cons d t ih =>
    intro hb a
    simp only [List.map_cons, List.foldl_cons]
    rw [digitVal_digitChar (hb d (by simp))]
    exact ih (fun x hx => hb x (by simp [hx])) _

theorem parseNat_natRepr (n : Nat) : parseNat (natRepr n) = n := by
  unfold natRepr parseNat
  split_ifs with h
  · subst h; decide
  · have hb : ∀ d ∈ (natDigitsRev n).reverse, d < 10 := by
      intro d hd; exact natDigitsRev_lt n d (List.mem_reverse.mp hd)
    rw [foldl_digitVal_map (natDigitsRev n).reverse hb 0, foldl_digits n 0]
    simp

theorem natRepr_mem (n : Nat) :
    ∀ c ∈ natRepr n, c ≠ '-' ∧ c ≠ '/' ∧ c ≠ ',' ∧ c ≠ '\n' := by
  unfold natRepr
  split_ifs with h <;> intro c hc
  · simp only [List.mem_singleton] at hc
    subst hc
    exact ⟨by decide, by decide, by decide, by decide⟩
  · obtain ⟨d, _, rfl⟩ := List.mem_map.mp hc
    exact digitChar_not_special d

theorem natRepr_ne_nil (n : Nat) : natRepr n ≠ [] := by
  unfold natRepr
  split_ifs with h
  · simp
  · simpa using natDigitsRev_ne_nil h

theorem intRepr_mem (i : Int) : ∀ c ∈ intRepr i, c ≠ '/' ∧ c ≠ ',' ∧ c ≠ '\n' := by
  unfold intRepr
  split_ifs with h <;> intro c hc
  · rcases List.mem_cons.mp hc with rfl | hm
    · exact ⟨by decide, by decide, by decide⟩
    · have hx := natRepr_mem _ c hm
      exact ⟨hx.2.1, hx.2.2.1, hx.2.2.2⟩
  · have hx := natRepr_mem _ c hc
    exact ⟨hx.2.1, hx.2.2.1, hx.2.2.2⟩

theorem parseInt_intRepr (i : Int) : parseInt (intRepr i) = i := by
  unfold intRepr
  split_ifs with h
  · have hstep : parseInt ('-' :: natRepr i.natAbs) = -(parseNat (natRepr i.natAbs) : Int) := by
      simp [parseInt]
    rw [hstep, parseNat_natRepr]
    omega
  · rcases hne : natRepr i.natAbs with _ | ⟨c, t⟩
    · exact absurd hne (natRepr_ne_nil _)
    · have hc : c ≠ '-' := (natRepr_mem i.natAbs c (by rw [hne]; simp)).1
      have hpi : parseInt (c :: t) = (parseNat (c :: t) : Int) := by
        simp [parseInt, hc]
      rw [hpi, ← hne, parseNat_natRepr]
      omega

theorem floatRepr_not_comma (q : ℚ) : ',' ∉ floatRepr q := by
  unfold floatRepr
  intro hc
  rcases List.mem_append.mp hc with hm | hm
  · exact (intRepr_mem q.num ',' hm).2.1 rfl
  · rcases List.mem_cons.mp hm with he | hm2
    · exact absurd he (by decide)
    · exact (natRepr_mem q.den ',' hm2).2.2.1 rfl

theorem floatRepr_ne_nil (q : ℚ) : floatRepr q ≠ [] := by
  unfold floatRepr
  simp

theorem pySplit_floatRepr (q : ℚ) :
    pySplit ['/'] (floatRepr q) = [intRepr q.num, natRepr q.den] := by
  have hmem : '/' ∉ intRepr q.num := fun hc => (intRepr_mem q.num '/' hc).1 rfl
  unfold floatRepr
  rw [show intRepr q.num ++ ('/' :: natRepr q.den)
        = intRepr q.num ++ ['/'] ++ natRepr q.den by simp]
  have hstep : pySplit ['/'] (intRepr q.num ++ ['/'] ++ natRepr q.den)
      = intRepr q.num :: pySplit ['/'] (natRepr q.den) := by
    apply pySplit_append_sep ['/'] (natRepr q.den) (by simp) (intRepr q.num)
    intro p hp hocc
    apply no_single_occurrence_in_free_head (intRepr q.num) (['/'] ++ natRepr q.den)
      hmem p hp
    simpa [OccursAt, List.append_assoc] using hocc
  rw [hstep,
    pySplit_single_of_not_mem _ (fun hc => (natRepr_mem q.den '/' hc).2.1 rfl)]

theorem parseFloat_floatRepr (q : ℚ) : parseFloat (floatRepr q) = q := by
  unfold parseFloat
  rw [pySplit_floatRepr]
  show (parseInt (intRepr q.num) : ℚ) / (parseNat (natRepr q.den) : ℚ) = q
  rw [parseInt_intRepr, parseNat_natRepr]
  exact Rat.num_div_den q

/-! ### Serialization of embedding vectors (`sqlite_memory_manager.py`) -/

/-- Serializes a list of embeddings to a string for storage in SQLite
(comma-joined scalars; the empty list becomes the empty string). -/
def serialize_embeddings (embeddings : List ℚ) : Str :=
  if embeddings = [] then [] else List.intercalate [','] (embeddings.map floatRepr)

/-- Deserializes a string of embeddings from SQLite into a list of rationals
(the empty string becomes the empty list). -/
def deserialize_embeddings (s : Str) : List ℚ :=
  if s = [] then [] else (pySplit [','] s).map parseFloat

theorem serialize_cons_ne_nil (q : ℚ) (rest : List ℚ) :
    serialize_embeddings (q :: rest) ≠ [] := by
  unfold serialize_embeddings
  rw [if_neg (by simp)]
  cases rest with
  | nil =>
    simp only [List.map_cons, List.map_nil, intercalate_singleton']
    exact floatRepr_ne_nil q
  | cons r t =>
    simp only [List.map_cons]
    rw [intercalate_cons₂]
    simp [floatRepr_ne_nil q]

theorem deserialize_serialize (qs : List ℚ) :
    deserialize_embeddings (serialize_embeddings qs) = qs := by
  cases qs with
  | nil => rfl
  | cons q rest =>
    unfold deserialize_embeddings
    rw [if_neg (serialize_cons_ne_nil q rest)]
    unfold serialize_embeddings
    rw [if_neg (by simp)]
    rw [pySplit_intercalate_single ',' ((q :: rest).map floatRepr) (by simp) ?_]
    · rw [List.map_map]
      have : parseFloat ∘ floatRepr = id := by
        funext x
        simp [parseFloat_floatRepr]
      rw [this, List.map_id]
    · intro s hs
      obtain ⟨x, _, rfl⟩ := List.mem_map.mp hs
      exact floatRepr_not_comma x

/-! ### Occurrence analysis for the multi-character message separator -/

theorem sep_core_infix_sep : SEP_CORE <:+: MESSAGE_SEPERATOR :=
  ⟨['\n'], ['\n'], rfl⟩

theorem sep_length : MESSAGE_SEPERATOR.length = 21 := by decide

theorem sep_interior_no_newline :
    ∀ d < 20, 1 ≤ d → d ≤ 19 → MESSAGE_SEPERATOR[d]? ≠ some '\n' := by decide

theorem sep_take_twenty : MESSAGE_SEPERATOR.take 20 = '\n' :: SEP_CORE := by decide

theorem infix_of_prefix_drop {sep m : Str} {p : Nat} (h : sep <+: List.drop p m) :
    sep <:+: m := by
  obtain ⟨t, ht⟩ := h
  exact ⟨List.take p m, t, by
    rw [List.append_assoc, ht, List.take_append_drop]⟩

theorem no_sep_occurrence_of_core_free (m rest : Str) (hm : ¬ SEP_CORE <:+: m) :
    ∀ p, p < m.length → ¬ OccursAt MESSAGE_SEPERATOR (m ++ MESSAGE_SEPERATOR ++ rest) p := by
  intro p hp hocc
  obtain ⟨t, ht⟩ := hocc
  rw [List.append_assoc] at ht
  have hdrop : List.drop p (m ++ (MESSAGE_SEPERATOR ++ rest))
      = List.drop p m ++ (MESSAGE_SEPERATOR ++ rest) :=
    List.drop_append_of_le_length (le_of_lt hp)
  rw [hdrop] at ht
  by_cases hcase : p + 21 ≤ m.length
  · -- the separator would lie entirely inside `m`
    have hlen : (21 : Nat) ≤ (List.drop p m).length := by
      rw [List.length_drop]; omega
    have htake : MESSAGE_SEPERATOR = List.take 21 (List.drop p m) := by
      have h1 : List.take 21 (MESSAGE_SEPERATOR ++ t) = MESSAGE_SEPERATOR := by
        rw [← sep_length]; exact List.take_left _ _
      have h2 : List.take 21 (List.drop p m ++ (MESSAGE_SEPERATOR ++ rest))
          = List.take 21 (List.drop p m) := List.take_append_of_le_length hlen
      rw [← h1, ht, h2]
    have hpre : MESSAGE_SEPERATOR <+: List.drop p m := by
      rw [htake]; exact List.take_prefix _ _
    exact hm (List.IsInfix.trans sep_core_infix_sep (infix_of_prefix_drop hpre))
  · -- the separator would straddle the boundary between `m` and itself
    have hd1 : 1 ≤ m.length - p := by omega
    have hd2 : m.length - p ≤ 20 := by omega
    -- the character at index `m.length - p` of the separator must be a newline
    have hidx : MESSAGE_SEPERATOR[m.length - p]? = some '\n' := by
      have hlt : m.length - p < MESSAGE_SEPERATOR.length := by rw [sep_length]; omega
      have h1 : (MESSAGE_SEPERATOR ++ t)[m.length - p]? = MESSAGE_SEPERATOR[m.length - p]? :=
        List.getElem?_append_left hlt
      have h2 : (List.drop p m ++ (MESSAGE_SEPERATOR ++ rest))[m.length - p]?
          = (MESSAGE_SEPERATOR ++ rest)[0]? := by
        have hmlen : (List.drop p m).length = m.length - p := by rw [List.length_drop]
        rw [List.getElem?_append_right (by omega)]
        rw [hmlen]
        norm_num
      have h3 : (MESSAGE_SEPERATOR ++ rest)[0]? = some '\n' := by
        rw [List.getElem?_append_left (by rw [sep_length]; omega)]
        rfl
      rw [← h1, ht, h2, h3]
    have hd20 : m.length - p = 20 := by
      by_contra hne
      exact sep_interior_no_newline (m.length - p) (by omega) hd1 (by omega) hidx
    -- so `m` ends with a newline followed by the core
    have hdropm : List.drop p m = '\n' :: SEP_CORE := by
      have h1 : List.take 20 (MESSAGE_SEPERATOR ++ t) = MESSAGE_SEPERATOR.take 20 :=
        List.take_append_of_le_length (by rw [sep_length]; omega)
      have hmlen : (List.drop p m).length = 20 := by rw [List.length_drop]; omega
      have h2 : List.take 20 (List.drop p m ++ (MESSAGE_SEPERATOR ++ rest))
          = List.take 20 (List.drop p m) := List.take_append_of_le_length (by omega)
      have h3 : List.take 20 (List.drop p m) = List.drop p m := by
        rw [← hmlen]; exact List.take_length _
      rw [← h3, ← h2, ← ht, h1, sep_take_twenty]
    apply hm
    refine ⟨List.take p m ++ ['\n'], [], ?_⟩
    calc (List.take p m ++ ['\n']) ++ SEP_CORE ++ []
        = List.take p m ++ ('\n' :: SEP_CORE) := by simp
      _ = List.take p m ++ List.drop p m := by rw [hdropm]
      _ = m := List.take_append_drop p m

theorem pySplit_intercalate_msgsep :
    ∀ (msgs : List Str), msgs ≠ [] → (∀ m ∈ msgs, ¬ SEP_CORE <:+: m) →
      pySplit MESSAGE_SEPERATOR (List.intercalate MESSAGE_SEPERATOR msgs) = msgs := by
  intro msgs
  induction msgs with
  | nil => intro h _; exact absurd rfl h
  | cons m rest ih =>
    intro _ hfree
    cases rest with
    | nil =>
      rw [intercalate_singleton']
      apply pySplit_of_no_occurrence _ (by decide) m
      intro p hocc
      have hinf : MESSAGE_SEPERATOR <:+: m :=
        (isInfix_iff_occursAt MESSAGE_SEPERATOR m).mpr ⟨p, hocc⟩
      exact hfree m (by simp) (List.IsInfix.trans sep_core_infix_sep hinf)
    | cons m2 r2 =>
      rw [intercalate_cons₂]
      have hstep : pySplit MESSAGE_SEPERATOR
            (m ++ MESSAGE_SEPERATOR ++ List.intercalate MESSAGE_SEPERATOR (m2 :: r2)) =
          m :: pySplit MESSAGE_SEPERATOR (List.intercalate MESSAGE_SEPERATOR (m2 :: r2)) := by
        apply pySplit_append_sep _ _ (by decide) m
        exact no_sep_occurrence_of_core_free m _ (hfree m (by simp))
      rw [hstep, ih (by simp) (fun s hs => hfree s (by simp [hs]))]

/-! ### Vector arithmetic (`memory/utils.py`) -/

/-- Dot product of two vectors (model of `np.dot` on equal-length lists). -/
def dot (a b : List ℚ) : ℚ := (List.zipWith (fun x y => x * y) a b).sum

/-- Structural integer square root (largest `k` with `k * k ≤ n`). -/
def natSqrtRec : Nat → Nat
  | 0 => 0
  | n + 1 =>
    let r := natSqrtRec n
    if (r + 1) * (r + 1) ≤ n + 1 then r + 1 else r

/-- Rational stand-in for the floating-point square root behind numpy's
vector norm; exact on perfect squares, which is all the concrete inputs in
this development use. -/
def ratSqrt (q : ℚ) : ℚ := (natSqrtRec q.num.toNat : ℚ) / (natSqrtRec q.den : ℚ)

/-- Model of `np.linalg.norm` (the euclidean norm of a vector). -/
def npNorm (v : List ℚ) : ℚ := ratSqrt (dot v v)

/-- Function `cosine_similarity` from `memory/utils.py`. -/
def cosine_similarity (vec_a vec_b : List ℚ) : ℚ :=
  dot vec_a vec_b / (npNorm vec_a * npNorm vec_b)

/-- Ascending stable argsort of the values (model of `np.argsort`). -/
def argsortAsc (xs : List ℚ) : List Nat :=
  List.insertionSort (fun i k => xs.getD i 0 ≤ xs.getD k 0) (List.range xs.length)

/-- Function `sort_items_by_relevance` from `memory/utils.py`: similarities of every
item to the query (in item order), and the item indices in
descending-similarity order.  The query vector is left unnormalized when its
norm is zero; every item row is divided by its own norm unconditionally. -/
def sort_items_by_relevance (query_embeddings : List ℚ)
    (items_embeddings : List (List ℚ)) : List ℚ × List Nat :=
  let query_norm := npNorm query_embeddings
  let query_vector :=
    if query_norm ≠ 0 then query_embeddings.map (fun x => x / query_norm)
    else query_embeddings
  let items_matrix :=
    items_embeddings.map (fun row => row.map (fun x => x / npNorm row))
  let similarities := items_matrix.map (fun row => dot row query_vector)
  (similarities, (argsortAsc similarities).reverse)

/-- Function `select_elements` from `run.py`: keep the in-range indices and read the
list at them. -/
def select_elements {α : Type} (lst : List α) (indices : List Nat) : List α :=
  indices.filterMap (fun i => lst[i]?)

theorem dot_cons (x y : ℚ) (a b : List ℚ) :
    dot (x :: a) (y :: b) = x * y + dot a b := by
  simp [dot]

theorem dot_comm (a : List ℚ) : ∀ b : List ℚ, dot a b = dot b a := by
  induction a with
  | nil => intro b; cases b <;> rfl
  | cons x a' ih =>
    intro b
    cases b with
    | nil => rfl
    | cons y b' => rw [dot_cons, dot_cons, ih b', mul_comm]

theorem dot_div_div (x y : ℚ) :
    ∀ (a b : List ℚ),
      dot (a.map (fun t => t / x)) (b.map (fun t => t / y)) = dot a b / (x * y) := by
  intro a
  induction a with
  | nil => intro b; cases b <;> simp [dot]
  | cons t a' ih =>
    intro b
    cases b with
    | nil => simp [dot]
    | cons u b' =>
      simp only [List.map_cons, dot_cons]
      rw [ih b', div_mul_div_comm, div_add_div_same]

theorem sort_items_similarities (query : List ℚ) (items : List (List ℚ))
    (hq : npNorm query ≠ 0) :
    (sort_items_by_relevance query items).1
      = items.map (fun it => cosine_similarity query it) := by
  unfold sort_items_by_relevance
  simp only [if_pos hq, List.map_map]
  apply List.map_congr_left
  intro row _
  simp only [Function.comp_apply]
  rw [dot_div_div, dot_comm, cosine_similarity, mul_comm]

theorem argsort_reverse_head (xs : List ℚ) (j : Nat) (hj : j < xs.length)
    (hmax : ∀ i, i < xs.length → i ≠ j → xs.getD i 0 < xs.getD j 0) :
    (argsortAsc xs).reverse.head? = some j := by
  unfold argsortAsc
  set r := fun i k : Nat => xs.getD i 0 ≤ xs.getD k 0 with hr
  haveI : IsTotal Nat r := ⟨fun a b => le_total _ _⟩
  haveI : IsTrans Nat r := ⟨fun a b c hab hbc => le_trans hab hbc⟩
  have hperm : (List.insertionSort r (List.range xs.length)).Perm (List.range xs.length) :=
    List.perm_insertionSort r _
  have hsorted : List.Sorted r (List.insertionSort r (List.range xs.length)) :=
    List.sorted_insertionSort r _
  have hnodup : (List.insertionSort r (List.range xs.length)).Nodup :=
    hperm.nodup_iff.mpr (List.nodup_range _)
  have hjmem : j ∈ List.insertionSort r (List.range xs.length) := by
    rw [hperm.mem_iff]
    exact List.mem_range.mpr hj
  obtain ⟨l1, l2, hsplit⟩ := List.append_of_mem hjmem
  have hl2 : l2 = [] := by
    cases l2 with
    | nil => rfl
    | cons x l2' =>
      exfalso
      have hrjx : r j x := by
        have hs := hsorted
        rw [hsplit] at hs
        have hp := (List.pairwise_append.mp hs).2.1
        exact (List.pairwise_cons.mp hp).1 x (by simp)
      have hxlt : x < xs.length := by
        have hxmem : x ∈ List.range xs.length := by
          rw [← hperm.mem_iff, hsplit]
          simp
        exact List.mem_range.mp hxmem
      have hxnej : x ≠ j := by
        intro hxj
        rw [hsplit] at hnodup
        have hnd := (List.nodup_append.mp hnodup).2.1
        have hjnot : j ∉ x :: l2' := (List.nodup_cons.mp hnd).1
        exact hjnot (by simp [hxj])
      exact absurd hrjx (not_le.mpr (hmax x hxlt hxnej))
  subst hl2
  rw [hsplit, List.reverse_append]
  rfl

/-! ### Data model: runtime objects (`memory/memory_manager.py`) and SQLite
rows (`memory/sqlite_memory_manager.py`) -/

/-- A keyword node as constructed at runtime. -/
structure KeywordNode where
  node_id : Str
  keyword : Str
  content : Str
  embeddings : List ℚ
deriving DecidableEq

/-- A relation edge as constructed at runtime; equality in the source
compares only `relation_id`, which the deduplication model mirrors. -/
structure RelationEdge where
  relation_id : Str
  source : Str
  target : Str
  relation_type : Str
  relation_desc : Str
  embeddings : List ℚ
deriving DecidableEq

/-- A message block; its content is derived from the messages. -/
structure MessageBlock where
  block_id : Str
  messages : List Str
  timestamp : Str
  title : Str
  embeddings : List ℚ
deriving DecidableEq

/-- Content of a message block: the messages joined by the separator. -/
def MessageBlock.content (b : MessageBlock) : Str :=
  List.intercalate MESSAGE_SEPERATOR b.messages

/-- A row of the `keywords` table, in column order. -/
structure KeywordRow where
  keyword_id : Str
  content : Str
  keyword : Str
  embeddings : Str
deriving DecidableEq

/-- A row of the `message_blocks` table, in column order. -/
structure BlockRow where
  block_id : Str
  messages : Str
  title : Str
  timestamp : Str
  embeddings : Str
deriving DecidableEq

/-- A row of the `relations` table, in column order. -/
structure RelationRow where
  relation_id : Str
  source : Str
  target : Str
  relation_type : Str
  relation_desc : Str
  embeddings : Str
deriving DecidableEq

/-- The three tables of the SQLite database, each in insertion order. -/
structure Store where
  keywords : List KeywordRow
  blocks : List BlockRow
  relations : List RelationRow
deriving DecidableEq

/-- SQLite `INSERT OR IGNORE` keyed on a primary key: appends the row unless
a row with the same key is already present. -/
def putRow {ρ : Type} (getId : ρ → Str) (table : List ρ) (r : ρ) : List ρ :=
  if table.any (fun x => decide (getId x = getId r)) then table else table ++ [r]

/-- Serialization of a keyword node into its table row. -/
def keywordRowOf (kw : KeywordNode) : KeywordRow :=
  ⟨kw.node_id, kw.content, kw.keyword, serialize_embeddings kw.embeddings⟩

/-- Serialization of a message block into its table row. -/
def blockRowOf (mb : MessageBlock) : BlockRow :=
  ⟨mb.block_id, mb.content, mb.title, mb.timestamp, serialize_embeddings mb.embeddings⟩

/-- Serialization of a relation edge into its table row. -/
def relationRowOf (re : RelationEdge) : RelationRow :=
  ⟨re.relation_id, re.source, re.target, re.relation_type, re.relation_desc,
    serialize_embeddings re.embeddings⟩

/-- Method `add_keyword` from `sqlite_memory_manager.py`. -/
def add_keyword (store : Store) (kw : KeywordNode) : Store :=
  ⟨putRow KeywordRow.keyword_id store.keywords (keywordRowOf kw),
    store.blocks, store.relations⟩

/-- Method `add_message_block` from `sqlite_memory_manager.py`. -/
def add_message_block (store : Store) (mb : MessageBlock) : Store :=
  ⟨store.keywords, putRow BlockRow.block_id store.blocks (blockRowOf mb),
    store.relations⟩

/-- Method `add_relation` from `sqlite_memory_manager.py`. -/
def add_relation (store : Store) (re : RelationEdge) : Store :=
  ⟨store.keywords, store.blocks,
    putRow RelationRow.relation_id store.relations (relationRowOf re)⟩

/-- Method `link_messages` simply delegates to `add_relation`. -/
def link_messages (store : Store) (re : RelationEdge) : Store := add_relation store re

/-- Method `add_message`: persist the block, then every keyword, then every
relation. -/
def add_message (store : Store) (mb : MessageBlock) (keywords : List KeywordNode)
    (relations : List RelationEdge) : Store :=
  relations.foldl link_messages (keywords.foldl add_keyword (add_message_block store mb))

/-- Method `get_relation_by_node`: the relation rows whose source or target is the
node, in table order, with embeddings deserialized. -/
def get_relation_by_node (relations : List RelationRow) (node_id : Str) :
    List RelationEdge :=
  (relations.filter (fun row => decide (row.source = node_id ∨ row.target = node_id))).map
    (fun row => ⟨row.relation_id, row.source, row.target, row.relation_type,
      row.relation_desc, deserialize_embeddings row.embeddings⟩)

/-- Method `get_message_block`: read a stored block back; the messages are recovered
by splitting the stored content column on the separator (a missing id raises
in the source and is `none` here). -/
def get_message_block (blocks : List BlockRow) (block_id : Str) : Option MessageBlock :=
  (blocks.find? (fun row => decide (row.block_id = block_id))).map
    (fun row => ⟨row.block_id, pySplit MESSAGE_SEPERATOR row.messages, row.timestamp,
      row.title, deserialize_embeddings row.embeddings⟩)

/-! ### Keyword search (`sqlite_memory_manager.py`) -/

/-- Keys of the Python dict built in `search_keywords`, in first-occurrence
order. -/
def dedupFirst (texts : List Str) : List Str :=
  texts.foldl (fun acc t => if t ∈ acc then acc else acc ++ [t]) []

/-- Value of the keyword dict at a text: the id of the last row carrying that
text (later dict insertions override earlier ones). -/
def dictGetLast (rows : List KeywordRow) (text : Str) : Str :=
  ((rows.filter (fun r => decide (r.keyword = text))).getLast?.map
    (fun r => r.keyword_id)).getD []

/-- Method `search_keywords` from `sqlite_memory_manager.py`, with the rapidfuzz
scorer as a parameter.  An empty query returns every row; otherwise matches
are ranked by descending score, filtered at the threshold and mapped back to
ids; the final SELECT returns the matching rows in table order. -/
def search_keywords (score : Str → Str → ℚ) (store : List KeywordRow) (query : Str)
    (threshold : ℚ) : List KeywordRow :=
  if query = [] then store
  else if store = [] then []
  else
    let keys := dedupFirst (store.map (fun r => r.keyword))
    let scored := keys.map (fun t => (t, score query t))
    let ranked := List.insertionSort (fun a b : Str × ℚ => b.2 ≤ a.2) scored
    let filtered := ranked.filter (fun m => decide (threshold ≤ m.2))
    let matching_ids := filtered.map (fun m => dictGetLast store m.1)
    store.filter (fun r => decide (r.keyword_id ∈ matching_ids))

/-- Default keyword row (list indexing in the source never goes out of
range on the reachable inputs). -/
def defaultKeywordRow : KeywordRow := ⟨[], [], [], []⟩

/-- Method `search_keywords_by_embedding` from `sqlite_memory_manager.py`, embedded
faithfully: an empty query embedding raises; an empty table returns no rows;
otherwise the rows are ranked and the comprehension filters on
`similarities[i]` while indexing `rows[ranks[i]]`, and the final SELECT
returns the matching rows in table order. -/
def search_keywords_by_embedding (store : List KeywordRow) (embeddings : List ℚ)
    (threshold : ℚ) : Except Str (List KeywordRow) :=
  if embeddings.length = 0 then .error ("Empty Input embeddings".toList)
  else if store.length = 0 then .ok []
  else
    let embeddings_arr := store.map (fun r => deserialize_embeddings r.embeddings)
    let sr := sort_items_by_relevance embeddings embeddings_arr
    let matching_ids := (List.range sr.1.length).filterMap (fun i =>
      if threshold ≤ sr.1.getD i 0 then
        some ((store.getD (sr.2.getD i 0) defaultKeywordRow).keyword_id)
      else none)
    .ok (store.filter (fun r => decide (r.keyword_id ∈ matching_ids)))

/-! ### LLM retry loop (`llm/utils.py`) -/

/-- Python truthiness of the optional parse result: `None` and the empty
mapping are both falsy. -/
def truthyDict (r : Option (List (Str × Str))) : Bool :=
  match r with
  | none => false
  | some d => !d.isEmpty

/-- Retry loop of `generate_summary_dict`; `outputs n` is the parse result
of attempt `n`.  Returns the first truthy result together with the number of
attempts made. -/
def generate_summary_go (outputs : Nat → Option (List (Str × Str))) :
    Nat → Nat → Option (List (Str × Str)) × Nat
  | cnt, 0 => (none, cnt)
  | cnt, remaining + 1 =>
    let rst := outputs cnt
    if truthyDict rst then (rst, cnt + 1)
    else generate_summary_go outputs (cnt + 1) remaining

/-- Function `generate_summary_dict` from `llm/utils.py`. -/
def generate_summary_dict (outputs : Nat → Option (List (Str × Str)))
    (max_retry : Nat) : Option (List (Str × Str)) × Nat :=
  generate_summary_go outputs 0 max_retry

/-! ### Orchestration (`run.py`) -/

/-- Deduplication of relation edges (`list(set(relations))`): equality and
hashing of edges in the source use only `relation_id`, and the set order is
modelled as keeping the first occurrence of each id. -/
def dedupRelations (relations : List RelationEdge) : List RelationEdge :=
  relations.foldl
    (fun acc r =>
      if acc.any (fun x => decide (x.relation_id = r.relation_id)) then acc
      else acc ++ [r]) []

/-- One iteration of the loop over a component of the decomposed query in
`retrieve_relevant_memory`: the relation-description lines the component
contributes (an exception from the semantic search propagates). -/
def componentLine (score : Str → Str → ℚ) (embed : Str → List ℚ) (store : Store)
    (kv : Str × Str) : Except Str (List Str) :=
  let query_embedding := embed kv.2
  let keywords0 := search_keywords score store.keywords kv.1 70
  match (if keywords0.length = 0
         then search_keywords_by_embedding store.keywords query_embedding (1 / 2)
         else .ok keywords0) with
  | .error e => .error e
  | .ok keywords =>
    let relations0 := keywords.foldl
      (fun acc kw => acc ++ get_relation_by_node store.relations kw.keyword_id) []
    if relations0.length = 0 then .ok []
    else
      let relations := dedupRelations relations0
      let possible_embeddings := relations.map (fun r => r.embeddings)
      let sr := sort_items_by_relevance query_embedding possible_embeddings
      let selected_relations := select_elements relations (sr.2.take 1)
      .ok (selected_relations.map (fun r => r.relation_desc))

/-- The memory lines collected over all components, in mapping order. -/
def linesOf (score : Str → Str → ℚ) (embed : Str → List ℚ) (store : Store) :
    List (Str × Str) → Except Str (List Str)
  | [] => .ok []
  | kv :: rest =>
    match componentLine score embed store kv with
    | .error e => .error e
    | .ok ls =>
      match linesOf score embed store rest with
      | .error e => .error e
      | .ok more => .ok (ls ++ more)

/-- Accumulator-style loop as written in the source. -/
def retrieveGo (score : Str → Str → ℚ) (embed : Str → List ℚ) (store : Store) :
    List (Str × Str) → List Str → Except Str (List Str)
  | [], acc => .ok acc
  | kv :: rest, acc =>
    match componentLine score embed store kv with
    | .error e => .error e
    | .ok ls => retrieveGo score embed store rest (acc ++ ls)

/-- Function `retrieve_relevant_memory` from `run.py`, parameterized by the decomposed
query mapping produced by the LLM. -/
def retrieve_relevant_memory (score : Str → Str → ℚ) (embed : Str → List ℚ)
    (store : Store) (query_dict : List (Str × Str)) : Except Str Str :=
  (retrieveGo score embed store query_dict []).map (List.intercalate ['\n'])

/-- State of the keyword/relation accumulation loop in
`process_messages_and_save_to_memory`. -/
structure LoopState where
  keywords : List KeywordNode
  relations : List RelationEdge
  cnt : Nat
deriving DecidableEq

/-- One iteration of the loop over the extracted `(keyword, description)`
pairs, as written in the source.  When the keyword matches an existing one,
the local variable `relations` is reassigned to the relations fetched from
the store before the new edge is appended. -/
def processPair (score : Str → Str → ℚ) (embed : Str → List ℚ) (store : Store)
    (block_id : Str) (st : LoopState) (kv : Str × Str) : LoopState :=
  let matched := search_keywords score store.keywords kv.1 70
  let relation_id := natRepr st.cnt ++ ('-' :: block_id)
  let edge : RelationEdge :=
    ⟨relation_id, kv.1, block_id, "describes".toList, kv.2, embed kv.2⟩
  match matched with
  | [] =>
    ⟨st.keywords ++ [⟨kv.1, kv.1, [], embed kv.2⟩], st.relations ++ [edge], st.cnt + 1⟩
  | m :: _ =>
    let fetched := get_relation_by_node store.relations m.keyword_id
    let desc := List.intercalate ['\n'] (fetched.map (fun r => r.relation_desc))
    let key_embd := embed (desc ++ ('\n' :: kv.2))
    ⟨st.keywords ++ [⟨m.keyword_id, m.keyword_id, [], key_embd⟩],
      fetched ++ [edge], st.cnt + 1⟩

/-- Function `process_messages_and_save_to_memory` from `run.py`, with the parsed
summary mapping as a parameter (`none` models the `AttributeError` raised
when every parse attempt failed); an `.error` result leaves the store
untouched since `add_message` is never reached. -/
def process_messages_and_save_to_memory (score : Str → Str → ℚ)
    (embed : Str → List ℚ) (summary : Option (List (Str × Str))) (store : Store)
    (block_id : Str) (messages : List Str) (timestamp : Str) : Except Str Store :=
  let mb : MessageBlock :=
    ⟨block_id, messages, timestamp, [],
      embed (List.intercalate MESSAGE_SEPERATOR messages)⟩
  match summary with
  | none => .error ("AttributeError: NoneType object has no attribute items".toList)
  | some summary_dict =>
    let final := summary_dict.foldl (processPair score embed store block_id) ⟨[], [], 0⟩
    .ok (add_message store mb final.keywords final.relations)

/-- Full ingestion including the LLM retry loop, as composed in the source. -/
def process_messages_full (score : Str → Str → ℚ) (embed : Str → List ℚ)
    (outputs : Nat → Option (List (Str × Str))) (store : Store) (block_id : Str)
    (messages : List Str) (timestamp : Str) : Except Str Store :=
  process_messages_and_save_to_memory score embed
    (generate_summary_dict outputs 3).1 store block_id messages timestamp

/-! ### Helper lemmas about `putRow` (INSERT OR IGNORE) -/

/-- Lookup of the first row with a given key. -/
def findRow {ρ : Type} (getId : ρ → Str) (table : List ρ) (id0 : Str) : Option ρ :=
  table.find? (fun x => decide (getId x = id0))

theorem putRow_noop {ρ : Type} (getId : ρ → Str) (t : List ρ) (r x : ρ)
    (hx : x ∈ t) (hid : getId x = getId r) : putRow getId t r = t := by
  unfold putRow
  rw [if_pos (List.any_eq_true.mpr ⟨x, hx, by simp [hid]⟩)]

theorem putRow_idem {ρ : Type} (getId : ρ → Str) (t : List ρ) (r : ρ) :
    putRow getId (putRow getId t r) r = putRow getId t r := by
  unfold putRow
  by_cases h : t.any (fun x => decide (getId x = getId r))
  · rw [if_pos h, if_pos h]
  · rw [if_neg h, if_pos (List.any_eq_true.mpr ⟨r, by simp, by simp⟩)]

theorem putRow_find {ρ : Type} (getId : ρ → Str) (t : List ρ) (r : ρ) :
    findRow getId (putRow getId t r) (getId r)
      = some ((findRow getId t (getId r)).getD r) := by
  unfold putRow findRow
  by_cases h : t.any (fun x => decide (getId x = getId r))
  · rw [if_pos h]
    rcases hf : t.find? (fun x => decide (getId x = getId r)) with _ | y
    · exfalso
      obtain ⟨x, hx, hxid⟩ := List.any_eq_true.mp h
      exact (List.find?_eq_none.mp hf x hx) hxid
    · simp [hf]
  · rw [if_neg h]
    have hnone : t.find? (fun x => decide (getId x = getId r)) = none := by
      rw [List.find?_eq_none]
      intro x hx hxid
      exact h (List.any_eq_true.mpr ⟨x, hx, hxid⟩)
    rw [List.find?_append, hnone]
    simp

/-- C7: for each of the three record collections, put is insert-if-absent:
inserting a record whose id is already present is a no-op, the first record
with an id always wins the lookup, and inserting the same record twice
leaves the store as after inserting it once. -/
theorem C7_put_insert_if_absent (s : Store) (kw : KeywordNode) (mb : MessageBlock)
    (re : RelationEdge) :
    ((∃ x ∈ s.keywords, x.keyword_id = (keywordRowOf kw).keyword_id) →
        add_keyword s kw = s) ∧
    add_keyword (add_keyword s kw) kw = add_keyword s kw ∧
    findRow KeywordRow.keyword_id (add_keyword s kw).keywords (keywordRowOf kw).keyword_id
      = some ((findRow KeywordRow.keyword_id s.keywords
          (keywordRowOf kw).keyword_id).getD (keywordRowOf kw)) ∧
    ((∃ x ∈ s.blocks, x.block_id = (blockRowOf mb).block_id) →
        add_message_block s mb = s) ∧
    add_message_block (add_message_block s mb) mb = add_message_block s mb ∧
    findRow BlockRow.block_id (add_message_block s mb).blocks (blockRowOf mb).block_id
      = some ((findRow BlockRow.block_id s.blocks
          (blockRowOf mb).block_id).getD (blockRowOf mb)) ∧
    ((∃ x ∈ s.relations, x.relation_id = (relationRowOf re).relation_id) →
        add_relation s re = s) ∧
    add_relation (add_relation s re) re = add_relation s re ∧
    findRow RelationRow.relation_id (add_relation s re).relations
        (relationRowOf re).relation_id
      = some ((findRow RelationRow.relation_id s.relations
          (relationRowOf re).relation_id).getD (relationRowOf re)) := by
  obtain ⟨ks, bs, rs⟩ := s
  refine ⟨?_, ?_, ?_, ?_, ?_, ?_, ?_, ?_, ?_⟩
  · rintro ⟨x, hx, hid⟩
    simp only [add_keyword]
    rw [putRow_noop _ _ _ x hx hid]
  · simp only [add_keyword]
    rw [putRow_idem]
  · simp only [add_keyword]
    exact putRow_find _ _ _
  · rintro ⟨x, hx, hid⟩
    simp only [add_message_block]
    rw [putRow_noop _ _ _ x hx hid]
  · simp only [add_message_block]
    rw [putRow_idem]
  · simp only [add_message_block]
    exact putRow_find _ _ _
  · rintro ⟨x, hx, hid⟩
    simp only [add_relation]
    rw [putRow_noop _ _ _ x hx hid]
  · simp only [add_relation]
    rw [putRow_idem]
  · simp only [add_relation]
    exact putRow_find _ _ _

/-- Witness for C7 at a concrete store whose three tables already hold the
inserted ids: all three puts are no-ops. -/
theorem C7_put_insert_if_absent_witness :
    add_keyword ⟨[⟨['k'], [], ['k'], []⟩], [⟨['b'], [], [], [], []⟩],
        [⟨['r'], [], [], [], [], []⟩]⟩ ⟨['k'], ['k'], [], []⟩
      = ⟨[⟨['k'], [], ['k'], []⟩], [⟨['b'], [], [], [], []⟩],
        [⟨['r'], [], [], [], [], []⟩]⟩ ∧
    add_relation ⟨[⟨['k'], [], ['k'], []⟩], [⟨['b'], [], [], [], []⟩],
        [⟨['r'], [], [], [], [], []⟩]⟩ ⟨['r'], [], [], [], [], []⟩
      = ⟨[⟨['k'], [], ['k'], []⟩], [⟨['b'], [], [], [], []⟩],
        [⟨['r'], [], [], [], [], []⟩]⟩ :=
  ⟨(C7_put_insert_if_absent _ ⟨['k'], ['k'], [], []⟩ ⟨['b'], [], [], [], []⟩
      ⟨['r'], [], [], [], [], []⟩).1 ⟨⟨['k'], [], ['k'], []⟩, by simp, rfl⟩,
   (C7_put_insert_if_absent _ ⟨['k'], ['k'], [], []⟩ ⟨['b'], [], [], [], []⟩
      ⟨['r'], [], [], [], [], []⟩).2.2.2.2.2.2.1
      ⟨⟨['r'], [], [], [], [], []⟩, by simp, rfl⟩⟩

/-- C8: deserializing the serialized textual encoding of any finite scalar
sequence yields the original sequence exactly; the empty sequence encodes to
the empty string and the empty string decodes to the empty sequence. -/
theorem C8_serialization_roundtrip :
    (∀ qs : List ℚ, deserialize_embeddings (serialize_embeddings qs) = qs) ∧
    serialize_embeddings [] = [] ∧ deserialize_embeddings [] = [] :=
  ⟨deserialize_serialize, rfl, rfl⟩

/-- Messages used against the split/join claim: neither message contains the
separator, yet joining them makes an occurrence of the separator appear one
position before the designated one. -/
def c9msgs : List Str := ["a\n<message seperator>".toList, "b".toList]

/-- C9 counterexample: the claim fails as stated.  Neither message of
`c9msgs` contains the separator, but splitting the derived content does not
reconstruct the list. -/
theorem C9_counterexample :
    (∀ m ∈ c9msgs, ¬ MESSAGE_SEPERATOR <:+: m) ∧
    pySplit MESSAGE_SEPERATOR
        (MessageBlock.content ⟨"blk".toList, c9msgs, [], [], []⟩) ≠ c9msgs := by
  decide

/-- C9 (amended): for a non-empty message list in which no message contains
the separator core `<message seperator>`, the stored content is the
separator-join of the messages and splitting it reconstructs the message
list exactly; the empty message list joins to the empty content, which
splits back to a single empty message instead. -/
theorem C9_content_roundtrip_amended :
    (∀ mb : MessageBlock, mb.messages ≠ [] →
      (∀ m ∈ mb.messages, ¬ SEP_CORE <:+: m) →
      mb.content = List.intercalate MESSAGE_SEPERATOR mb.messages ∧
      pySplit MESSAGE_SEPERATOR mb.content = mb.messages) ∧
    pySplit MESSAGE_SEPERATOR (MessageBlock.content ⟨[], [], [], [], []⟩) = [[]] := by
  constructor
  · intro mb h1 h2
    exact ⟨rfl, pySplit_intercalate_msgsep mb.messages h1 h2⟩
  · rfl

/-- Witness for the amended C9 round trip at a concrete two-message block. -/
theorem C9_content_roundtrip_amended_witness :
    pySplit MESSAGE_SEPERATOR
        (MessageBlock.content ⟨"b".toList, ["hi".toList, "yo".toList], [], [], []⟩)
      = ["hi".toList, "yo".toList] :=
  (C9_content_roundtrip_amended.1 ⟨"b".toList, ["hi".toList, "yo".toList], [], [], []⟩
    (by decide) (by decide)).2

/-- C10: the semantic search fails exactly on an empty query embedding, and
any non-empty query embedding against an empty keyword table returns the
empty result without error. -/
theorem C10_search_embedding_errors (store : List KeywordRow) (embeddings : List ℚ)
    (threshold : ℚ) :
    ((∃ e, search_keywords_by_embedding store embeddings threshold = .error e)
        ↔ embeddings = []) ∧
    (embeddings ≠ [] →
      search_keywords_by_embedding [] embeddings threshold = .ok []) := by
  by_cases hemb : embeddings = []
  · subst hemb
    exact ⟨⟨fun _ => rfl, fun _ => ⟨_, rfl⟩⟩, fun h => absurd rfl h⟩
  · have hlen : ¬ embeddings.length = 0 := by
      simpa [List.length_eq_zero] using hemb
    constructor
    · constructor
      · rintro ⟨e, he⟩
        unfold search_keywords_by_embedding at he
        rw [if_neg hlen] at he
        split_ifs at he
      · intro h
        exact absurd h hemb
    · intro _
      unfold search_keywords_by_embedding
      rw [if_neg hlen]
      rfl

/-- Witness for C10: a singleton embedding against the empty store, and the
empty embedding against a non-empty store. -/
theorem C10_search_embedding_errors_witness :
    search_keywords_by_embedding [] [(1 : ℚ)] (1 / 2) = .ok [] ∧
    (∃ e, search_keywords_by_embedding [defaultKeywordRow] [] (1 / 2) = .error e) :=
  ⟨(C10_search_embedding_errors [] [1] (1 / 2)).2 (by simp),
   (C10_search_embedding_errors [defaultKeywordRow] [] (1 / 2)).1.mpr rfl⟩

/-! ### The LLM retry loop (claim C5) -/

/-- C5 counterexample: when every attempt parses successfully to the empty
mapping, the loop still retries and exhausts all three attempts, returning
no mapping — so retries are not limited to outputs that cannot be parsed. -/
theorem C5_counterexample :
    (fun _ : Nat => some ([] : List (Str × Str))) 0 = some [] ∧
    generate_summary_dict (fun _ => some []) 3 = (none, 3) :=
  ⟨rfl, rfl⟩

/-- C5 (amended): the keyword-extraction call is attempted at most 3 times;
an attempt is final exactly when its parse result is truthy (present and
non-empty), earlier falsy attempts having been retried; and when all 3
attempts yield falsy results the ingestion fails with an error before
anything is persisted. -/
theorem C5_retry_bound_amended (outputs : Nat → Option (List (Str × Str))) :
    (generate_summary_dict outputs 3).2 ≤ 3 ∧
    (∀ i, i < 3 → truthyDict (outputs i) = true →
      (∀ k, k < i → truthyDict (outputs k) = false) →
      generate_summary_dict outputs 3 = (outputs i, i + 1)) ∧
    ((∀ i, i < 3 → truthyDict (outputs i) = false) →
      generate_summary_dict outputs 3 = (none, 3) ∧
      ∀ (score : Str → Str → ℚ) (embed : Str → List ℚ) (store : Store)
        (block_id : Str) (messages : List Str) (timestamp : Str),
        process_messages_full score embed outputs store block_id messages timestamp
          = .error ("AttributeError: NoneType object has no attribute items".toList)) := by
  refine ⟨?_, ?_, ?_⟩
  · by_cases h0 : truthyDict (outputs 0) <;>
      by_cases h1 : truthyDict (outputs 1) <;>
        by_cases h2 : truthyDict (outputs 2) <;>
          simp [generate_summary_dict, generate_summary_go, h0, h1, h2]
  · intro i hi ht hk
    interval_cases i
    · simp [generate_summary_dict, generate_summary_go, ht]
    · have h0 : truthyDict (outputs 0) = false := hk 0 (by norm_num)
      simp [generate_summary_dict, generate_summary_go, h0, ht]
    · have h0 : truthyDict (outputs 0) = false := hk 0 (by norm_num)
      have h1 : truthyDict (outputs 1) = false := hk 1 (by norm_num)
      simp [generate_summary_dict, generate_summary_go, h0, h1, ht]
  · intro hall
    have h0 : truthyDict (outputs 0) = false := hall 0 (by norm_num)
    have h1 : truthyDict (outputs 1) = false := hall 1 (by norm_num)
    have h2 : truthyDict (outputs 2) = false := hall 2 (by norm_num)
    have hgen : generate_summary_dict outputs 3 = (none, 3) := by
      simp [generate_summary_dict, generate_summary_go, h0, h1, h2]
    refine ⟨hgen, ?_⟩
    intro score embed store block_id messages timestamp
    unfold process_messages_full
    rw [hgen]
    rfl

/-- Witness for the amended C5: the first attempt fails to parse, the second
parses to a non-empty mapping and is returned after exactly 2 attempts; and
a run whose attempts all return nothing fails with the error. -/
theorem C5_retry_bound_amended_witness :
    generate_summary_dict (fun n => if n = 0 then none else some [([], [])]) 3
      = (some [([], [])], 2) ∧
    process_messages_full (fun _ _ => 0) (fun _ => []) (fun _ => none)
        ⟨[], [], []⟩ [] [] []
      = .error ("AttributeError: NoneType object has no attribute items".toList) :=
  ⟨(C5_retry_bound_amended (fun n => if n = 0 then none else some [([], [])])).2.1 1
      (by norm_num) (by decide)
      (by
        intro k hk
        interval_cases k
        decide),
   ((C5_retry_bound_amended (fun _ => none)).2.2
      (by intro i _; rfl)).2 (fun _ _ => 0) (fun _ => []) ⟨[], [], []⟩ [] [] []⟩

/-! ### The keyword resolver (claim C4) -/

theorem intercalate_append_last (sep v : Str) :
    ∀ ds : List Str, ds ≠ [] →
      List.intercalate sep ds ++ (sep ++ v) = List.intercalate sep (ds ++ [v]) := by
  intro ds
  induction ds with
  | nil => intro h; exact absurd rfl h
  | cons d t ih =>
    intro _
    cases t with
    | nil =>
      rw [intercalate_singleton']
      show d ++ (sep ++ v) = List.intercalate sep (d :: [v])
      rw [intercalate_cons₂, intercalate_singleton', List.append_assoc]
    | cons d2 t2 =>
      rw [intercalate_cons₂]
      show (d ++ sep ++ List.intercalate sep (d2 :: t2)) ++ (sep ++ v) = _
      rw [List.append_assoc, List.append_assoc, ih (by simp), ← List.append_assoc]
      simp only [List.cons_append]
      rw [intercalate_cons₂ sep d d2 (t2 ++ [v])]

/-- C4 (amended): when the resolver finds a match it keeps the match's id as
the canonical id and embeds the newline-join of the descriptions of all
relations currently attached to that id, followed by one newline and the new
description.  Whenever at least one relation is attached, that text is
exactly the newline-join of the attached descriptions with the new
description appended; with zero attached relations the embedded text gains a
leading newline instead. -/
theorem C4_resolver_amended (score : Str → Str → ℚ) (embed : Str → List ℚ)
    (store : Store) (block_id : Str) (st : LoopState) (kv : Str × Str)
    (m : KeywordRow) (rest : List KeywordRow)
    (hmatch : search_keywords score store.keywords kv.1 70 = m :: rest) :
    (processPair score embed store block_id st kv).keywords
      = st.keywords ++ [⟨m.keyword_id, m.keyword_id, [],
          embed (List.intercalate ['\n']
              ((get_relation_by_node store.relations m.keyword_id).map
                (fun r => r.relation_desc)) ++ ('\n' :: kv.2))⟩] ∧
    ((get_relation_by_node store.relations m.keyword_id).map
        (fun r => r.relation_desc) ≠ [] →
      List.intercalate ['\n']
          ((get_relation_by_node store.relations m.keyword_id).map
            (fun r => r.relation_desc)) ++ ('\n' :: kv.2)
        = List.intercalate ['\n']
            ((get_relation_by_node store.relations m.keyword_id).map
              (fun r => r.relation_desc) ++ [kv.2])) := by
  constructor
  · unfold processPair
    rw [hmatch]
  · intro hne
    exact intercalate_append_last ['\n'] kv.2 _ hne

/-- Witness for the amended C4: a store with one existing keyword carrying
one attached relation; the refreshed node keeps the stored id and embeds the
old description, a newline and the new description. -/
theorem C4_resolver_amended_witness :
    (processPair (fun a b => if a = b then 100 else 0)
        (fun s => s.map (fun c => (c.toNat : ℚ)))
        ⟨[⟨"kw-acc".toList, [], "account".toList, []⟩], [],
          [⟨"r1".toList, "kw-acc".toList, "m1".toList, "describes".toList,
            "old".toList, []⟩]⟩
        "b".toList ⟨[], [], 0⟩ ("account".toList, "new".toList)).keywords
      = [⟨"kw-acc".toList, "kw-acc".toList, [],
          ("old\nnew".toList).map (fun c => (c.toNat : ℚ))⟩] ∧
    List.intercalate ['\n'] ["old".toList] ++ ('\n' :: "new".toList)
      = List.intercalate ['\n'] ["old".toList, "new".toList] := by
  have h := C4_resolver_amended (fun a b => if a = b then 100 else 0)
    (fun s => s.map (fun c => (c.toNat : ℚ)))
    ⟨[⟨"kw-acc".toList, [], "account".toList, []⟩], [],
      [⟨"r1".toList, "kw-acc".toList, "m1".toList, "describes".toList,
        "old".toList, []⟩]⟩
    "b".toList ⟨[], [], 0⟩ ("account".toList, "new".toList)
    ⟨"kw-acc".toList, [], "account".toList, []⟩ [] (by decide)
  refine ⟨?_, ?_⟩
  · rw [h.1]
    decide
  · have h2 := h.2 (by decide)
    have h3 : (get_relation_by_node
        (⟨[⟨"kw-acc".toList, [], "account".toList, []⟩], [],
          [⟨"r1".toList, "kw-acc".toList, "m1".toList, "describes".toList,
            "old".toList, []⟩]⟩ : Store).relations "kw-acc".toList).map
        (fun r => r.relation_desc) = ["old".toList] := by decide
    rw [h3] at h2
    exact h2

/-- C4 counterexample: with a matched keyword that has zero attached
relations, the embedded text is a newline followed by the new description,
which differs from the newline-join of the (empty) description list with the
new description appended — the claim's text for this case. -/
theorem C4_counterexample :
    search_keywords (fun a b => if a = b then 100 else 0)
        [⟨"kw-acc".toList, [], "account".toList, []⟩] "account".toList 70
      = [⟨"kw-acc".toList, [], "account".toList, []⟩] ∧
    get_relation_by_node ([] : List RelationRow) "kw-acc".toList = [] ∧
    (processPair (fun a b => if a = b then 100 else 0)
        (fun s => s.map (fun c => (c.toNat : ℚ)))
        ⟨[⟨"kw-acc".toList, [], "account".toList, []⟩], [], []⟩
        "b".toList ⟨[], [], 0⟩ ("account".toList, "d".toList)).keywords
      = [⟨"kw-acc".toList, "kw-acc".toList, [],
          ("\nd".toList).map (fun c => (c.toNat : ℚ))⟩] ∧
    ("\nd".toList).map (fun c => (c.toNat : ℚ))
      ≠ (List.intercalate ['\n'] (([] : List Str) ++ ["d".toList])).map
          (fun c => (c.toNat : ℚ)) := by
  refine ⟨by decide, rfl, by decide, by decide⟩

/-! ### Retrieval orchestration (claim C2) -/

/-- Default relation edge for modelled list indexing. -/
def defaultRelationEdge : RelationEdge := ⟨[], [], [], [], [], []⟩

theorem head?_take_one {α : Type} (l : List α) (j : α) (h : l.head? = some j) :
    l.take 1 = [j] := by
  cases l with
  | nil => simp at h
  | cons a t =>
    simp only [List.head?_cons, Option.some.injEq] at h
    subst h
    rfl

theorem select_singleton (rels : List RelationEdge) (j : Nat) (h : j < rels.length) :
    select_elements rels [j] = [rels.getD j defaultRelationEdge] := by
  unfold select_elements
  rw [List.filterMap_cons, List.filterMap_nil]
  rw [List.getElem?_eq_getElem h]
  rw [List.getD_eq_getElem?_getD, List.getElem?_eq_getElem h]
  rfl

theorem getD_map_cos (qe : List ℚ) (l : List RelationEdge) (i : Nat) (h : i < l.length) :
    ((l.map (fun r => r.embeddings)).map (fun it => cosine_similarity qe it)).getD i 0
      = cosine_similarity qe ((l.getD i defaultRelationEdge).embeddings) := by
  rw [List.map_map, List.getD_eq_getElem?_getD, List.getElem?_map,
    List.getElem?_eq_getElem h, List.getD_eq_getElem?_getD, List.getElem?_eq_getElem h]
  rfl

theorem componentLine_ok_unfold (score : Str → Str → ℚ) (embed : Str → List ℚ)
    (store : Store) (kv : Str × Str) (keywords : List KeywordRow)
    (hk : (if (search_keywords score store.keywords kv.1 70).length = 0
           then search_keywords_by_embedding store.keywords (embed kv.2) (1 / 2)
           else .ok (search_keywords score store.keywords kv.1 70)) = .ok keywords) :
    componentLine score embed store kv =
      if (keywords.foldl
          (fun acc kw => acc ++ get_relation_by_node store.relations kw.keyword_id)
          []).length = 0 then .ok []
      else
        .ok ((select_elements
            (dedupRelations (keywords.foldl
              (fun acc kw => acc ++ get_relation_by_node store.relations kw.keyword_id) []))
            (((sort_items_by_relevance (embed kv.2)
                ((dedupRelations (keywords.foldl
                  (fun acc kw => acc ++ get_relation_by_node store.relations kw.keyword_id)
                  [])).map (fun r => r.embeddings))).2).take 1)).map
          (fun r => r.relation_desc)) := by
  simp only [componentLine]
  rw [hk]

theorem componentLine_error_unfold (score : Str → Str → ℚ) (embed : Str → List ℚ)
    (store : Store) (kv : Str × Str) (e : Str)
    (hk : (if (search_keywords score store.keywords kv.1 70).length = 0
           then search_keywords_by_embedding store.keywords (embed kv.2) (1 / 2)
           else .ok (search_keywords score store.keywords kv.1 70)) = .error e) :
    componentLine score embed store kv = .error e := by
  simp only [componentLine]
  rw [hk]

theorem retrieveGo_eq_linesOf (score : Str → Str → ℚ) (embed : Str → List ℚ)
    (store : Store) :
    ∀ (qd : List (Str × Str)) (acc : List Str),
      retrieveGo score embed store qd acc
        = (linesOf score embed store qd).map (fun ls => acc ++ ls) := by
  intro qd
  induction qd with
  | nil =>
    intro acc
    simp [retrieveGo, linesOf, Except.map]
  | cons kv rest ih =>
    intro acc
    unfold retrieveGo linesOf
    cases hc : componentLine score embed store kv with
    | error e => rfl
    | ok ls =>
      dsimp only
      rw [ih (acc ++ ls)]
      cases hr : linesOf score embed store rest with
      | error e => rfl
      | ok more => simp [Except.map, List.append_assoc]

/-- C2: the orchestrator's output is the per-component lines joined in the
mapping's order; every component contributes at most one line; a component
whose matched keywords carry no relations contributes none; and a
contributing component's line is the description of the relation whose
embedding is the unique top-ranked one by cosine similarity to the subquery
embedding. -/
theorem C2_retrieval_lines (score : Str → Str → ℚ) (embed : Str → List ℚ)
    (store : Store) :
    (∀ query_dict : List (Str × Str),
      retrieve_relevant_memory score embed store query_dict
        = (linesOf score embed store query_dict).map (List.intercalate ['\n'])) ∧
    (∀ kv ls, componentLine score embed store kv = .ok ls → ls.length ≤ 1) ∧
    (∀ kv keywords,
      (if (search_keywords score store.keywords kv.1 70).length = 0
       then search_keywords_by_embedding store.keywords (embed kv.2) (1 / 2)
       else .ok (search_keywords score store.keywords kv.1 70)) = .ok keywords →
      keywords.foldl
          (fun acc kw => acc ++ get_relation_by_node store.relations kw.keyword_id) []
        = [] →
      componentLine score embed store kv = .ok []) ∧
    (∀ kv keywords j,
      (if (search_keywords score store.keywords kv.1 70).length = 0
       then search_keywords_by_embedding store.keywords (embed kv.2) (1 / 2)
       else .ok (search_keywords score store.keywords kv.1 70)) = .ok keywords →
      dedupRelations (keywords.foldl
          (fun acc kw => acc ++ get_relation_by_node store.relations kw.keyword_id) [])
        ≠ [] →
      npNorm (embed kv.2) ≠ 0 →
      j < (dedupRelations (keywords.foldl
          (fun acc kw => acc ++ get_relation_by_node store.relations kw.keyword_id)
          [])).length →
      (∀ i, i < (dedupRelations (keywords.foldl
          (fun acc kw => acc ++ get_relation_by_node store.relations kw.keyword_id)
          [])).length → i ≠ j →
        cosine_similarity (embed kv.2)
            (((dedupRelations (keywords.foldl
              (fun acc kw => acc ++ get_relation_by_node store.relations kw.keyword_id)
              [])).getD i defaultRelationEdge).embeddings)
          < cosine_similarity (embed kv.2)
              (((dedupRelations (keywords.foldl
                (fun acc kw => acc ++ get_relation_by_node store.relations kw.keyword_id)
                [])).getD j defaultRelationEdge).embeddings)) →
      componentLine score embed store kv
        = .ok [((dedupRelations (keywords.foldl
            (fun acc kw => acc ++ get_relation_by_node store.relations kw.keyword_id)
            [])).getD j defaultRelationEdge).relation_desc]) := by
  refine ⟨?_, ?_, ?_, ?_⟩
  · intro qd
    unfold retrieve_relevant_memory
    rw [retrieveGo_eq_linesOf]
    cases linesOf score embed store qd with
    | error e => rfl
    | ok ls => simp [Except.map]
  · intro kv ls hok
    cases hres : (if (search_keywords score store.keywords kv.1 70).length = 0
        then search_keywords_by_embedding store.keywords (embed kv.2) (1 / 2)
        else .ok (search_keywords score store.keywords kv.1 70)) with
    | error e =>
      rw [componentLine_error_unfold score embed store kv e hres] at hok
      exact Except.noConfusion hok
    | ok keywords =>
      rw [componentLine_ok_unfold score embed store kv keywords hres] at hok
      split_ifs at hok with hz
      · cases hok
        simp
      · cases hok
        rw [List.length_map]
        calc (select_elements _ _).length
            ≤ (((sort_items_by_relevance (embed kv.2) _).2).take 1).length :=
              List.length_filterMap_le _ _
          _ ≤ 1 := by
              rw [List.length_take]
              exact min_le_left _ _
  · intro kv keywords hres hrel
    rw [componentLine_ok_unfold score embed store kv keywords hres, hrel]
    rfl
  · intro kv keywords j hres hne hq hj hmax
    rw [componentLine_ok_unfold score embed store kv keywords hres]
    have hrels0 : (keywords.foldl
        (fun acc kw => acc ++ get_relation_by_node store.relations kw.keyword_id) [])
        ≠ [] := by
      intro h0
      rw [h0] at hne
      exact hne rfl
    rw [if_neg (by simpa [List.length_eq_zero] using hrels0)]
    have hsim : (sort_items_by_relevance (embed kv.2)
        ((dedupRelations (keywords.foldl
          (fun acc kw => acc ++ get_relation_by_node store.relations kw.keyword_id)
          [])).map (fun r => r.embeddings))).1
        = ((dedupRelations (keywords.foldl
          (fun acc kw => acc ++ get_relation_by_node store.relations kw.keyword_id)
          [])).map (fun r => r.embeddings)).map
            (fun it => cosine_similarity (embed kv.2) it) :=
      sort_items_similarities _ _ hq
    have hlen : (((dedupRelations (keywords.foldl
        (fun acc kw => acc ++ get_relation_by_node store.relations kw.keyword_id)
        [])).map (fun r => r.embeddings)).map
          (fun it => cosine_similarity (embed kv.2) it)).length
        = (dedupRelations (keywords.foldl
          (fun acc kw => acc ++ get_relation_by_node store.relations kw.keyword_id)
          [])).length := by
      simp
    have hhead : ((argsortAsc ((sort_items_by_relevance (embed kv.2)
        ((dedupRelations (keywords.foldl
          (fun acc kw => acc ++ get_relation_by_node store.relations kw.keyword_id)
          [])).map (fun r => r.embeddings))).1)).reverse).head? = some j := by
      rw [hsim]
      apply argsort_reverse_head
      · rw [hlen]
        exact hj
      · intro i hi hij
        rw [hlen] at hi
        rw [getD_map_cos _ _ _ hi, getD_map_cos _ _ _ hj]
        exact hmax i hi hij
    have hranks : (sort_items_by_relevance (embed kv.2)
        ((dedupRelations (keywords.foldl
          (fun acc kw => acc ++ get_relation_by_node store.relations kw.keyword_id)
          [])).map (fun r => r.embeddings))).2
        = (argsortAsc ((sort_items_by_relevance (embed kv.2)
          ((dedupRelations (keywords.foldl
            (fun acc kw => acc ++ get_relation_by_node store.relations kw.keyword_id)
            [])).map (fun r => r.embeddings))).1)).reverse := rfl
    rw [hranks, head?_take_one _ j hhead, select_singleton _ j hj]
    rfl

/-- Exact-match instantiation of the external fuzzy scorer. -/
def exactScore : Str → Str → ℚ := fun a b => if a = b then 100 else 0

/-- Constant embedding collaborator used in the C2 witness. -/
def c2embed : Str → List ℚ := fun _ => [1, 0]

/-- First stored relation row of the C2 witness store. -/
def c2row1 : RelationRow :=
  ⟨"r1".toList, "kw".toList, "m1".toList, "describes".toList, "d1".toList,
    serialize_embeddings [0, 1]⟩

/-- Second stored relation row of the C2 witness store. -/
def c2row2 : RelationRow :=
  ⟨"r2".toList, "kw".toList, "m2".toList, "describes".toList, "d2".toList,
    serialize_embeddings [1, 0]⟩

/-- The C2 witness store: one keyword with two attached relations. -/
def c2store : Store :=
  ⟨[⟨"kw".toList, [], "account".toList, []⟩], [], [c2row1, c2row2]⟩

/-- The runtime edge corresponding to `c2row1`. -/
def c2edge1 : RelationEdge :=
  ⟨"r1".toList, "kw".toList, "m1".toList, "describes".toList, "d1".toList, [0, 1]⟩

/-- The runtime edge corresponding to `c2row2`. -/
def c2edge2 : RelationEdge :=
  ⟨"r2".toList, "kw".toList, "m2".toList, "describes".toList, "d2".toList, [1, 0]⟩

theorem c2_dot_self : dot [(1 : ℚ), 0] [(1 : ℚ), 0] = 1 := by
  simp [dot]

theorem c2_norm_q : npNorm [(1 : ℚ), 0] = 1 := by
  rw [npNorm, c2_dot_self]
  rw [ratSqrt]
  norm_num [natSqrtRec]

theorem c2_cos_low : cosine_similarity [(1 : ℚ), 0] [(0 : ℚ), 1] = 0 := by
  rw [cosine_similarity]
  have : dot [(1 : ℚ), 0] [(0 : ℚ), 1] = 0 := by simp [dot]
  rw [this, zero_div]

theorem c2_cos_high : cosine_similarity [(1 : ℚ), 0] [(1 : ℚ), 0] = 1 := by
  rw [cosine_similarity, c2_dot_self, c2_norm_q]
  norm_num

theorem c2_fold_relations :
    ([⟨"kw".toList, [], "account".toList, []⟩] : List KeywordRow).foldl
        (fun acc kw => acc ++ get_relation_by_node c2store.relations kw.keyword_id) []
      = [c2edge1, c2edge2] := by
  have hg : get_relation_by_node c2store.relations "kw".toList
      = [⟨"r1".toList, "kw".toList, "m1".toList, "describes".toList, "d1".toList,
          deserialize_embeddings (serialize_embeddings [0, 1])⟩,
         ⟨"r2".toList, "kw".toList, "m2".toList, "describes".toList, "d2".toList,
          deserialize_embeddings (serialize_embeddings [1, 0])⟩] := rfl
  rw [List.foldl_cons, List.foldl_nil, List.nil_append, hg,
    deserialize_serialize, deserialize_serialize]
  rfl

/-- Witness for C2 at the concrete store: the component's line is the
description of the relation with the strictly larger cosine similarity. -/
theorem C2_retrieval_lines_witness :
    componentLine exactScore c2embed c2store ("account".toList, "q".toList)
      = .ok ["d2".toList] := by
  have hdedup : dedupRelations [c2edge1, c2edge2] = [c2edge1, c2edge2] := rfl
  have h := (C2_retrieval_lines exactScore c2embed c2store).2.2.2
    ("account".toList, "q".toList) [⟨"kw".toList, [], "account".toList, []⟩] 1
    (by
      have hs : search_keywords exactScore c2store.keywords "account".toList 70
          = [⟨"kw".toList, [], "account".toList, []⟩] := by decide
      show (if (search_keywords exactScore c2store.keywords "account".toList 70).length = 0
            then search_keywords_by_embedding c2store.keywords (c2embed "q".toList) (1 / 2)
            else .ok (search_keywords exactScore c2store.keywords "account".toList 70))
          = .ok [⟨"kw".toList, [], "account".toList, []⟩]
      rw [hs]
      rfl)
    (by rw [c2_fold_relations, hdedup]; simp)
    (by
      show npNorm [(1 : ℚ), 0] ≠ 0
      rw [c2_norm_q]
      norm_num)
    (by rw [c2_fold_relations, hdedup]; norm_num)
    (by
      rw [c2_fold_relations, hdedup]
      intro i hi hij
      simp only [List.length_cons, List.length_nil] at hi
      interval_cases i
      · show cosine_similarity (c2embed "q".toList)
            (([c2edge1, c2edge2].getD 0 defaultRelationEdge).embeddings)
          < cosine_similarity (c2embed "q".toList)
            (([c2edge1, c2edge2].getD 1 defaultRelationEdge).embeddings)
        show cosine_similarity [(1 : ℚ), 0] [(0 : ℚ), 1]
          < cosine_similarity [(1 : ℚ), 0] [(1 : ℚ), 0]
        rw [c2_cos_low, c2_cos_high]
        norm_num
      · exact absurd rfl hij)
  rw [h, c2_fold_relations, hdedup]
  rfl

/-! ### Failing evaluations for claims C1, C3 and C6 -/

/-- Keyword row whose embedding has similarity 0 to the C1 query. -/
def c1rowA : KeywordRow := ⟨"a".toList, [], "alpha".toList, serialize_embeddings [0, 1]⟩

/-- Keyword row whose embedding has similarity 1 to the C1 query. -/
def c1rowB : KeywordRow := ⟨"b".toList, [], "beta".toList, serialize_embeddings [1, 0]⟩

theorem c1_sims : (sort_items_by_relevance [(1 : ℚ), 0] [[0, 1], [1, 0]]).1 = [0, 1] := by
  rw [sort_items_similarities _ _ (by rw [c2_norm_q]; norm_num)]
  simp only [List.map_cons, List.map_nil]
  rw [c2_cos_low, c2_cos_high]

theorem c1_ranks : (sort_items_by_relevance [(1 : ℚ), 0] [[0, 1], [1, 0]]).2 = [1, 0] := by
  show (argsortAsc (sort_items_by_relevance [(1 : ℚ), 0] [[0, 1], [1, 0]]).1).reverse
      = [1, 0]
  rw [c1_sims]
  decide

/-- C1 failing evaluation: keyword A has similarity 0 to the query and
keyword B similarity 1; with threshold one half the search returns exactly
keyword A — the record BELOW the threshold — because the comprehension pairs
`similarities[i]` with `rows[ranks[i]]`. -/
theorem C1_search_misalignment :
    cosine_similarity [(1 : ℚ), 0] (deserialize_embeddings c1rowA.embeddings) = 0 ∧
    cosine_similarity [(1 : ℚ), 0] (deserialize_embeddings c1rowB.embeddings) = 1 ∧
    search_keywords_by_embedding [c1rowA, c1rowB] [(1 : ℚ), 0] (1 / 2)
      = .ok [c1rowA] := by
  have hdesA : deserialize_embeddings c1rowA.embeddings = [0, 1] :=
    deserialize_serialize [0, 1]
  have hdesB : deserialize_embeddings c1rowB.embeddings = [1, 0] :=
    deserialize_serialize [1, 0]
  refine ⟨?_, ?_, ?_⟩
  · rw [hdesA, c2_cos_low]
  · rw [hdesB, c2_cos_high]
  · have harr : [c1rowA, c1rowB].map (fun r => deserialize_embeddings r.embeddings)
        = [[0, 1], [1, 0]] := by
      simp only [List.map_cons, List.map_nil]
      rw [hdesA, hdesB]
    simp only [search_keywords_by_embedding]
    rw [if_neg (by norm_num), if_neg (by norm_num)]
    rw [harr, c1_sims, c1_ranks]
    have hm : (List.range ([(0 : ℚ), 1].length)).filterMap (fun i =>
        if (1 / 2 : ℚ) ≤ [(0 : ℚ), 1].getD i 0 then
          some (([c1rowA, c1rowB].getD ([1, 0].getD i 0) defaultKeywordRow).keyword_id)
        else none) = ["a".toList] := by
      show ([0, 1] : List Nat).filterMap _ = _
      rw [List.filterMap_cons, List.filterMap_cons, List.filterMap_nil]
      rw [if_neg (by norm_num), if_pos (by norm_num)]
      rfl
    rw [hm]
    rfl

/-- C6 failing evaluation: the guard protects only the query vector.  The
first item row has norm exactly zero and is still divided by it; in this
exact-arithmetic model the division by the zero norm collapses to the zero
vector (similarity 0), where the floating-point implementation produces NaN.
The query-side guard does hold: a zero-norm query is passed through
unnormalized. -/
theorem C6_zero_norm_item :
    npNorm [(0 : ℚ), 0] = 0 ∧
    (sort_items_by_relevance [(1 : ℚ), 0] [[(0 : ℚ), 0], [(1 : ℚ), 0]]).1 = [0, 1] ∧
    (sort_items_by_relevance [(0 : ℚ), 0] [[(1 : ℚ), 0]]).1 = [0] := by
  have hz : npNorm [(0 : ℚ), 0] = 0 := by
    have hd : dot [(0 : ℚ), 0] [(0 : ℚ), 0] = 0 := by simp [dot]
    rw [npNorm, hd, ratSqrt]
    norm_num [natSqrtRec]
  refine ⟨hz, ?_, ?_⟩
  · rw [sort_items_similarities _ _ (by rw [c2_norm_q]; norm_num)]
    simp only [List.map_cons, List.map_nil]
    have h1 : cosine_similarity [(1 : ℚ), 0] [(0 : ℚ), 0] = 0 := by
      have hd : dot [(1 : ℚ), 0] [(0 : ℚ), 0] = 0 := by simp [dot]
      rw [cosine_similarity, hd, zero_div]
    rw [h1, c2_cos_high]
  · simp only [sort_items_by_relevance]
    rw [if_neg (by rw [hz]; simp)]
    simp [dot]

/-- Store for the C3 failing evaluation: one existing keyword, no
relations. -/
def c3store : Store := ⟨[⟨"kw-acc".toList, [], "account".toList, []⟩], [], []⟩

/-- Embedding collaborator returning empty vectors (the embedding values are
irrelevant to the C3 bug). -/
def nilEmbed : Str → List ℚ := fun _ => []

/-- C3 failing evaluation: ingesting the two extracted pairs persists only
the relation of the second pair (the first pair's edge is lost when the
`relations` accumulator is reassigned by the existing-keyword branch), and
the surviving edge's source is the raw extracted text, not the canonical id
`kw-acc` resolved for it. -/
theorem C3_lost_relation :
    (process_messages_and_save_to_memory exactScore nilEmbed
          (some [("topic1".toList, "d1".toList), ("account".toList, "d2".toList)])
          c3store "blk".toList ["m".toList] "t".toList).toOption.map
        (fun s => s.relations.map (fun r => (r.relation_id, r.source)))
      = some [("1-blk".toList, "account".toList)] := by decide

end Neko
